import Mathlib

/-!
Verification of the analysis pipeline of `services.py` (term classifier,
term scorer, term annotator, statistics aggregator, analysis orchestrator,
request registry).  Source strings are modelled as `List Char`, Python
floats as `ℚ` (all arithmetic in the pipeline is exact decimal arithmetic),
Python dicts keyed by strings as association lists, and raised exceptions
as `Except` values.
-/

/-- The `TermClassification` enumeration of `models.py`. -/
inductive TermClassification where
  | valid
  | review
  | critical
  | spelling
  | grammar
deriving DecidableEq, Repr

/-- The `AnalysisStatus` enumeration of `models.py`. -/
inductive AnalysisStatus where
  | pending
  | processing
  | completed
  | failed
deriving DecidableEq, Repr

/-- Python `str.lower` restricted to the character-wise case map. -/
def pyLower (s : List Char) : List Char := s.map Char.toLower

/-- The stop-word list of `_classify_term`. -/
def stop_words : List (List Char) :=
  ["the", "and", "or", "but", "in", "on", "at", "to"].map String.toList

/-- Python `str.isalpha`: non-empty and every character alphabetic. -/
def pyIsAlpha (s : List Char) : Bool := !s.isEmpty && s.all Char.isAlpha

/-- `AnalysisService._classify_term` (services.py:183-195): the first-match
classification chain over length, stop words, digits and alphabeticity. -/
def _classify_term (term : List Char) (language domain : List Char) : TermClassification :=
  if term.length < 2 then .critical
  else if pyLower term ∈ stop_words then .valid
  else if term.any Char.isDigit then .review
  else if !pyIsAlpha term then .spelling
  else .valid

/-- The `base_scores` dict of `_calculate_term_score`, as a lookup
returning `none` off the listed keys (the dict covers every key). -/
def base_scores (c : TermClassification) : Option ℚ :=
  match c with
  | .valid => some (9/10)
  | .review => some (6/10)
  | .critical => some (3/10)
  | .spelling => some (2/10)
  | .grammar => some (4/10)

/-- `AnalysisService._calculate_term_score` (services.py:197-210):
base score from the dict (default 0.5), plus a length bonus, capped at 1. -/
def _calculate_term_score (term : List Char) (classification : TermClassification) : ℚ :=
  let base_score := (base_scores classification).getD (5/10)
  let length_factor := min 1 ((term.length : ℚ) / 10)
  min 1 (base_score + (length_factor * (1/10)))

/-- The confidence expression of `_analyze_terms` (services.py:161):
`min(0.9, max(0.1, score + 0.1))`. -/
def term_confidence (score : ℚ) : ℚ := min (9/10) (max (1/10) (score + 1/10))

/-- Spec-side classifier, written from the words of the classification
policy in §4.1 of the specification: five rules applied in order,
first match winning. -/
def classify_policy (term : List Char) : TermClassification :=
  if term.length < 2 then .critical
  else if pyLower term ∈ stop_words then .valid
  else if term.any Char.isDigit then .review
  else if ¬ (term.all Char.isAlpha) then .spelling
  else .valid

/-- Spec-side base score table from §4.2 of the specification. -/
def claim_base (c : TermClassification) : ℚ :=
  match c with
  | .valid => 9/10
  | .review => 6/10
  | .critical => 3/10
  | .spelling => 2/10
  | .grammar => 4/10

/-- Spec-side clamp: `clamp(x, lo, hi)` keeps `x` inside `[lo, hi]`. -/
def clampQ (x lo hi : ℚ) : ℚ := max lo (min x hi)

/-- C1: `_classify_term` implements the five-rule first-match policy of the
specification, for every term, language and domain. -/
theorem C1_classifier_matches_policy (term language domain : List Char) :
    _classify_term term language domain = classify_policy term := by
  unfold _classify_term classify_policy pyIsAlpha
  by_cases hlen : term.length < 2
  · simp [hlen]
  · have hne : term ≠ [] := by
      intro h
      subst h
      simp at hlen
    simp only [hlen, if_false]
    by_cases hstop : pyLower term ∈ stop_words
    · simp [hstop]
    · simp only [hstop, if_false]
      by_cases hdig : term.any Char.isDigit
      · simp [hdig]
      · simp [hdig, List.isEmpty_iff, hne]

/-- C8: the classification depends only on the term: language and domain
never change the result. -/
theorem C8_classify_language_domain_irrelevant
    (term l1 d1 l2 d2 : List Char) :
    _classify_term term l1 d1 = _classify_term term l2 d2 := rfl

/-- C2: the score is `min(1, base + 0.1·min(1, len/10))` with the base
table of the spec, the confidence is `clamp(score+0.1, 0.1, 0.9)`, and the
two outputs always land in `[0,1]` and `[0.1, 0.9]` respectively. -/
theorem C2_score_confidence_formula_and_bounds
    (term : List Char) (c : TermClassification) :
    _calculate_term_score term c
        = min 1 (claim_base c + (1/10) * min 1 ((term.length : ℚ) / 10))
    ∧ term_confidence (_calculate_term_score term c)
        = clampQ (_calculate_term_score term c + 1/10) (1/10) (9/10)
    ∧ 0 ≤ _calculate_term_score term c
    ∧ _calculate_term_score term c ≤ 1
    ∧ 1/10 ≤ term_confidence (_calculate_term_score term c)
    ∧ term_confidence (_calculate_term_score term c) ≤ 9/10 := by
  have hL0 : (0 : ℚ) ≤ min 1 ((term.length : ℚ) / 10) :=
    le_min (by norm_num) (by positivity)
  have hbase : (base_scores c).getD (5/10) = claim_base c := by
    cases c <;> rfl
  have hform : _calculate_term_score term c
      = min 1 (claim_base c + (1/10) * min 1 ((term.length : ℚ) / 10)) := by
    unfold _calculate_term_score
    rw [hbase, mul_comm]
  have hb0 : (0 : ℚ) ≤ claim_base c := by
    cases c <;> norm_num [claim_base]
  refine ⟨hform, ?_, ?_, ?_, ?_, ?_⟩
  · unfold term_confidence clampQ
    rcases le_total (_calculate_term_score term c + 1/10) (1/10) with h | h
    · rw [max_eq_left h, min_eq_left (h.trans (by norm_num)),
        max_eq_left h, min_eq_right (by norm_num)]
    · rw [max_eq_right h,
        max_eq_right (le_min h (by norm_num)), min_comm]
  · rw [hform]
    exact le_min (by norm_num) (by positivity)
  · rw [hform]
    exact min_le_left _ _
  · unfold term_confidence
    exact le_min (by norm_num) (le_max_left _ _)
  · unfold term_confidence
    exact min_le_left _ _

/-- One Python whitespace character (the characters `str.split` splits on,
restricted to the ASCII range). -/
def isPySpace (c : Char) : Bool := c.isWhitespace

/-- Accumulator worker for `pySplit`: `acc` holds the characters of the
token currently being read, in reverse. -/
def pySplitAux : List Char → List Char → List (List Char)
  | acc, [] => if acc.isEmpty then [] else [acc.reverse]
  | acc, c :: rest =>
    if isPySpace c then
      if acc.isEmpty then pySplitAux [] rest
      else acc.reverse :: pySplitAux [] rest
    else pySplitAux (c :: acc) rest

/-- Python `str.split()` with no separator: the maximal runs of
non-whitespace characters, in order. -/
def pySplit (cs : List Char) : List (List Char) := pySplitAux [] cs

/-- `matchesAt w cs` holds when `w` is an initial segment of `cs`. -/
def matchesAt : List Char → List Char → Bool
  | [], _ => true
  | _ :: _, [] => false
  | a :: as, b :: bs => a = b && matchesAt as bs

/-- Index of the first occurrence of `w` as a contiguous segment of `cs`,
if any. -/
def firstOccur (cs w : List Char) : Option Nat :=
  if matchesAt w cs then some 0
  else
    match cs with
    | [] => none
    | _ :: rest => (firstOccur rest w).map (· + 1)

/-- Python `str.find`: index of the first occurrence, `-1` when absent. -/
def pyFind (cs w : List Char) : Int :=
  match firstOccur cs w with
  | some i => (i : Int)
  | none => -1

/-- `AnalysisService._extract_context` (services.py:212-220): the slice of
50 characters around the first occurrence, empty when absent. -/
def _extract_context (content term : List Char) : List Char :=
  match firstOccur content term with
  | none => []
  | some index =>
    let start := index - 50
    let stop := min content.length (index + term.length + 50)
    (content.drop start).take (stop - start)

/-- `AnalysisService._generate_rationale` (services.py:222-231): the
per-classification template dict, queried with a default. -/
def _generate_rationale (term : List Char) (c : TermClassification) : List Char :=
  let q : List Char := '\'' :: term ++ ['\'']
  let rationales : TermClassification → Option (List Char) := fun k =>
    match k with
    | .valid => some (q ++ " is correctly used and appropriate for the context.".toList)
    | .review => some (q ++ " may need review for consistency or clarity.".toList)
    | .critical => some (q ++ " requires immediate attention due to potential issues.".toList)
    | .spelling => some (q ++ " appears to have spelling errors.".toList)
    | .grammar => some (q ++ " has grammatical issues that should be addressed.".toList)
  (rationales c).getD (q ++ " has been analyzed.".toList)

/-- Python `str.capitalize`: first character upper-cased, rest lower. -/
def pyCapitalize (s : List Char) : List Char :=
  match s with
  | [] => []
  | c :: rest => c.toUpper :: rest.map Char.toLower

/-- `AnalysisService._generate_suggestions` (services.py:233-241). -/
def _generate_suggestions (term : List Char) (c : TermClassification) : List (List Char) :=
  if c = .spelling then
    [term ++ "ed".toList, term ++ "ing".toList, pyCapitalize term]
  else if c = .critical then
    ["Consider rephrasing".toList, "Check for accuracy".toList, "Verify context".toList]
  else if c = .review then
    ["Review for clarity".toList, "Consider alternatives".toList]
  else []

/-- The `AnalyzedTerm` record of `models.py`, with the fields the service
populates. -/
structure AnalyzedTerm where
  text : List Char
  start_position : Int
  end_position : Int
  classification : TermClassification
  score : ℚ
  confidence : ℚ
  frequency : Nat
  context : List Char
  rationale : List Char
  suggestions : Option (List (List Char))
deriving DecidableEq, Repr

/-- The body of the per-word loop of `AnalysisService._analyze_terms`
(services.py:157-175): one `AnalyzedTerm` from one word. -/
def mkAnalyzedTerm (content : List Char) (words : List (List Char))
    (language domain : List Char) (word : List Char) : AnalyzedTerm :=
  let classification := _classify_term word language domain
  let score := _calculate_term_score word classification
  let confidence := term_confidence score
  { text := word
    start_position := pyFind content word
    end_position := pyFind content word + word.length
    classification := classification
    score := score
    confidence := confidence
    frequency := words.count word
    context := _extract_context content word
    rationale := _generate_rationale word classification
    suggestions :=
      if classification ≠ TermClassification.valid then
        some (_generate_suggestions word classification)
      else none }

/-- `AnalysisService._analyze_terms` (services.py:141-181): split the
content on whitespace and build one `AnalyzedTerm` per word, in order. -/
def _analyze_terms (content language domain : List Char) : List AnalyzedTerm :=
  let words := pySplit content
  words.map (mkAnalyzedTerm content words language domain)

example : pySplit "ab  cd".toList = ["ab".toList, "cd".toList] := by decide
example : pySplit "  ".toList = [] := by decide
example : firstOccur "abcab".toList "ca".toList = some 2 := by decide
example : pyFind "abc".toList "zz".toList = -1 := by decide
example :
    (_analyze_terms "the cat1".toList "en".toList "general".toList).map
      (fun t => t.classification)
      = [TermClassification.valid, TermClassification.review] := by decide

/-- The `AnalysisStatistics` record of `models.py`, with the fields the
service populates. -/
structure AnalysisStatistics where
  total_terms : Nat
  valid_terms : Nat
  review_terms : Nat
  critical_terms : Nat
  spelling_errors : Nat
  grammar_errors : Nat
  quality_score : ℚ
  confidence_min : ℚ
  confidence_max : ℚ
  confidence_avg : ℚ
  coverage : ℚ
  processing_time : ℚ
deriving DecidableEq, Repr

/-- Python `min` over a list, `none` on the empty list. -/
def pyMinQ : List ℚ → Option ℚ
  | [] => none
  | x :: xs => some (xs.foldl min x)

/-- Python `max` over a list, `none` on the empty list. -/
def pyMaxQ : List ℚ → Option ℚ
  | [] => none
  | x :: xs => some (xs.foldl max x)

/-- The `classification_counts` tally of `_calculate_statistics`: how many
terms carry classification `c`. -/
def countClass (terms : List AnalyzedTerm) (c : TermClassification) : Nat :=
  terms.countP (fun t => t.classification == c)

/-- `AnalysisService._calculate_statistics` (services.py:243-278): tally
the classifications, average the scores, and take extrema and mean of the
confidences, with 0.0 fallbacks on an empty term list. -/
def _calculate_statistics (terms : List AnalyzedTerm) (processing_time : ℚ) :
    AnalysisStatistics :=
  let scores := terms.map (fun t => t.score)
  let confidences := terms.map (fun t => t.confidence)
  { total_terms := terms.length
    valid_terms := countClass terms .valid
    review_terms := countClass terms .review
    critical_terms := countClass terms .critical
    spelling_errors := countClass terms .spelling
    grammar_errors := countClass terms .grammar
    quality_score := if scores.isEmpty then 0 else scores.sum / (scores.length : ℚ)
    confidence_min :=
      match pyMinQ confidences with
      | some m => m
      | none => 0
    confidence_max :=
      match pyMaxQ confidences with
      | some m => m
      | none => 0
    confidence_avg :=
      if confidences.isEmpty then 0 else confidences.sum / (confidences.length : ℚ)
    coverage := 1
    processing_time := processing_time }

lemma countClass_partition (terms : List AnalyzedTerm) :
    countClass terms .valid + countClass terms .review + countClass terms .critical
      + countClass terms .spelling + countClass terms .grammar = terms.length := by
  induction terms with
  | nil => rfl
  | cons t ts ih =>
    simp only [countClass, List.countP_cons, List.length_cons] at *
    cases h : t.classification <;> simp [h] <;> omega

lemma foldl_min_le_init (xs : List ℚ) (x : ℚ) : xs.foldl min x ≤ x := by
  induction xs generalizing x with
  | nil => exact le_refl x
  | cons y ys ih =>
    exact le_trans (ih (min x y)) (min_le_left x y)

lemma le_foldl_max_init (xs : List ℚ) (x : ℚ) : x ≤ xs.foldl max x := by
  induction xs generalizing x with
  | nil => exact le_refl x
  | cons y ys ih =>
    exact le_trans (le_max_left x y) (ih (max x y))

lemma foldl_min_mul_le_sum (xs : List ℚ) (x : ℚ) :
    (xs.foldl min x) * ((xs.length : ℚ) + 1) ≤ x + xs.sum := by
  induction xs generalizing x with
  | nil => simp
  | cons y ys ih =>
    have h1 := ih (min x y)
    have h2 := foldl_min_le_init ys (min x y)
    have h3 : min x y ≤ x := min_le_left x y
    have h4 : min x y ≤ y := min_le_right x y
    simp only [List.foldl_cons, List.length_cons, List.sum_cons]
    push_cast
    nlinarith [h1, h2, h3, h4]

lemma sum_le_foldl_max_mul (xs : List ℚ) (x : ℚ) :
    x + xs.sum ≤ (xs.foldl max x) * ((xs.length : ℚ) + 1) := by
  induction xs generalizing x with
  | nil => simp
  | cons y ys ih =>
    have h1 := ih (max x y)
    have h2 := le_foldl_max_init ys (max x y)
    have h3 : x ≤ max x y := le_max_left x y
    have h4 : y ≤ max x y := le_max_right x y
    simp only [List.foldl_cons, List.length_cons, List.sum_cons]
    push_cast
    nlinarith [h1, h2, h3, h4]

/-- C5: on the empty term sequence the aggregator returns zero counts,
zero quality score and zero confidence extrema and mean, whatever the
elapsed time. -/
theorem C5_empty_statistics (elapsed : ℚ) :
    (_calculate_statistics [] elapsed).total_terms = 0
    ∧ (_calculate_statistics [] elapsed).valid_terms = 0
    ∧ (_calculate_statistics [] elapsed).review_terms = 0
    ∧ (_calculate_statistics [] elapsed).critical_terms = 0
    ∧ (_calculate_statistics [] elapsed).spelling_errors = 0
    ∧ (_calculate_statistics [] elapsed).grammar_errors = 0
    ∧ (_calculate_statistics [] elapsed).quality_score = 0
    ∧ (_calculate_statistics [] elapsed).confidence_min = 0
    ∧ (_calculate_statistics [] elapsed).confidence_max = 0
    ∧ (_calculate_statistics [] elapsed).confidence_avg = 0 :=
  ⟨rfl, rfl, rfl, rfl, rfl, rfl, rfl, rfl, rfl, rfl⟩

/-- A term record carrying the `grammar` classification, a value the
`AnalyzedTerm` data model admits. -/
def grammarTerm : AnalyzedTerm :=
  { text := "go".toList
    start_position := 0
    end_position := 2
    classification := .grammar
    score := 4/10
    confidence := 1/2
    frequency := 1
    context := "go".toList
    rationale := []
    suggestions := none }

/-- C3, counterexample: on the one-element sequence holding a
grammar-classified term, the four classification counts sum to 0 while
`total_terms` is 1, so the claim as stated fails. -/
theorem C3_counterexample :
    ¬ ((_calculate_statistics [grammarTerm] 0).valid_terms
        + (_calculate_statistics [grammarTerm] 0).review_terms
        + (_calculate_statistics [grammarTerm] 0).critical_terms
        + (_calculate_statistics [grammarTerm] 0).spelling_errors
        = (_calculate_statistics [grammarTerm] 0).total_terms) := by
  decide

/-- C3, amended: the five classification counts (the four of the claim
plus `grammar_errors`) always sum to `total_terms`; the four alone do
whenever no term of the sequence is classified `grammar`. -/
theorem C3_counts_sum_amended (terms : List AnalyzedTerm) (elapsed : ℚ)
    (h : terms ≠ []) :
    ((_calculate_statistics terms elapsed).valid_terms
      + (_calculate_statistics terms elapsed).review_terms
      + (_calculate_statistics terms elapsed).critical_terms
      + (_calculate_statistics terms elapsed).spelling_errors
      + (_calculate_statistics terms elapsed).grammar_errors
      = (_calculate_statistics terms elapsed).total_terms)
    ∧ ((∀ t ∈ terms, t.classification ≠ .grammar) →
        (_calculate_statistics terms elapsed).valid_terms
          + (_calculate_statistics terms elapsed).review_terms
          + (_calculate_statistics terms elapsed).critical_terms
          + (_calculate_statistics terms elapsed).spelling_errors
          = (_calculate_statistics terms elapsed).total_terms) := by
  have hpart := countClass_partition terms
  constructor
  · exact hpart
  · intro hng
    have hzero : countClass terms .grammar = 0 := by
      simp only [countClass, List.countP_eq_zero]
      intro t ht
      simp [hng t ht]
    show countClass terms .valid + countClass terms .review
        + countClass terms .critical + countClass terms .spelling = terms.length
    omega

/-- C3, witness for the amended theorem, at a one-element valid-classified
sequence. -/
theorem C3_counts_sum_amended_witness :
    (((_calculate_statistics [{ grammarTerm with classification := .valid }] 0).valid_terms
      + (_calculate_statistics [{ grammarTerm with classification := .valid }] 0).review_terms
      + (_calculate_statistics [{ grammarTerm with classification := .valid }] 0).critical_terms
      + (_calculate_statistics [{ grammarTerm with classification := .valid }] 0).spelling_errors
      + (_calculate_statistics [{ grammarTerm with classification := .valid }] 0).grammar_errors
      = (_calculate_statistics [{ grammarTerm with classification := .valid }] 0).total_terms)
    ∧ ((∀ t ∈ [{ grammarTerm with classification := TermClassification.valid }], t.classification ≠ .grammar) →
        (_calculate_statistics [{ grammarTerm with classification := .valid }] 0).valid_terms
          + (_calculate_statistics [{ grammarTerm with classification := .valid }] 0).review_terms
          + (_calculate_statistics [{ grammarTerm with classification := .valid }] 0).critical_terms
          + (_calculate_statistics [{ grammarTerm with classification := .valid }] 0).spelling_errors
          = (_calculate_statistics [{ grammarTerm with classification := .valid }] 0).total_terms)) :=
  C3_counts_sum_amended [{ grammarTerm with classification := .valid }] 0 (by decide)

/-- C4: with at least one term, the aggregator's confidence extrema bracket
its confidence mean. -/
theorem C4_confidence_min_avg_max (terms : List AnalyzedTerm) (elapsed : ℚ)
    (h : terms ≠ []) :
    (_calculate_statistics terms elapsed).confidence_min
        ≤ (_calculate_statistics terms elapsed).confidence_avg
    ∧ (_calculate_statistics terms elapsed).confidence_avg
        ≤ (_calculate_statistics terms elapsed).confidence_max := by
  obtain ⟨t, ts, rfl⟩ := List.exists_cons_of_ne_nil h
  simp only [_calculate_statistics, List.map_cons, pyMinQ, pyMaxQ, List.isEmpty_cons,
    List.sum_cons, List.length_cons, Nat.cast_add, Nat.cast_one]
  norm_num
  have hlen : (0 : ℚ) < (ts.length : ℚ) + 1 := by positivity
  constructor
  · rw [le_div_iff₀ hlen]
    have := foldl_min_mul_le_sum (ts.map (fun t => t.confidence)) t.confidence
    rw [List.length_map] at this
    linarith
  · rw [div_le_iff₀ hlen]
    have := sum_le_foldl_max_mul (ts.map (fun t => t.confidence)) t.confidence
    rw [List.length_map] at this
    linarith

/-- C4, witness at a one-element sequence. -/
theorem C4_confidence_min_avg_max_witness :
    (_calculate_statistics [grammarTerm] 0).confidence_min
        ≤ (_calculate_statistics [grammarTerm] 0).confidence_avg
    ∧ (_calculate_statistics [grammarTerm] 0).confidence_avg
        ≤ (_calculate_statistics [grammarTerm] 0).confidence_max :=
  C4_confidence_min_avg_max [grammarTerm] 0 (by decide)

lemma matchesAt_append_self (w rest : List Char) : matchesAt w (w ++ rest) = true := by
  induction w with
  | nil => rfl
  | cons a as ih => simp [matchesAt, ih]

lemma pySplitAux_sound (cs : List Char) :
    ∀ (acc w : List Char), w ∈ pySplitAux acc cs →
      (∃ t, w = acc.reverse ++ t ∧ matchesAt t cs = true ∧ (acc = [] → t ≠ []))
      ∨ (w ≠ [] ∧ ∃ i, matchesAt w (cs.drop i) = true) := by
  induction cs with
  | nil =>
    intro acc w hw
    by_cases ha : acc.isEmpty
    · simp [pySplitAux, ha] at hw
    · simp [pySplitAux, ha] at hw
      subst hw
      left
      refine ⟨[], by simp, rfl, fun hacc => ?_⟩
      rw [hacc] at ha
      simp at ha
  | cons c rest ih =>
    intro acc w hw
    by_cases hsp : isPySpace c
    · simp only [pySplitAux, hsp, if_true] at hw
      have fromRest : w ∈ pySplitAux [] rest →
          w ≠ [] ∧ ∃ i, matchesAt w ((c :: rest).drop i) = true := by
        intro hw'
        obtain h | h := ih [] w hw'
        · obtain ⟨t, heq, hm, hne⟩ := h
          have hwt : w = t := by simpa using heq
          subst hwt
          exact ⟨hne rfl, 1, by simpa using hm⟩
        · obtain ⟨hne, i, hm⟩ := h
          exact ⟨hne, i + 1, by simpa using hm⟩
      by_cases ha : acc.isEmpty
      · simp only [ha, if_true] at hw
        exact Or.inr (fromRest hw)
      · rw [if_neg ha, List.mem_cons] at hw
        obtain rfl | hw' := hw
        · left
          refine ⟨[], by simp, rfl, fun hacc => ?_⟩
          rw [hacc] at ha
          simp at ha
        · exact Or.inr (fromRest hw')
    · simp only [pySplitAux, hsp, if_false] at hw
      obtain h | h := ih (c :: acc) w hw
      · obtain ⟨t, heq, hm, _⟩ := h
        left
        refine ⟨c :: t, ?_, ?_, fun _ => by simp⟩
        · rw [heq]
          simp
        · simp [matchesAt, hm]
      · obtain ⟨hne, i, hm⟩ := h
        exact Or.inr ⟨hne, i + 1, by simpa using hm⟩

lemma pySplit_sound (content w : List Char) (hw : w ∈ pySplit content) :
    w ≠ [] ∧ ∃ i, matchesAt w (content.drop i) = true := by
  rcases pySplitAux_sound content [] w hw with ⟨t, heq, hm, hne⟩ | h
  · have hwt : w = t := by simpa using heq
    subst hwt
    exact ⟨hne rfl, 0, by simpa using hm⟩
  · exact h

lemma firstOccur_none_no_match (cs w : List Char) :
    firstOccur cs w = none → ∀ i, matchesAt w (cs.drop i) = false := by
  induction cs with
  | nil =>
    intro h i
    rw [firstOccur] at h
    split at h
    · exact absurd h (by simp)
    · rename_i hm
      simpa using hm
  | cons c rest ih =>
    intro h i
    rw [firstOccur] at h
    split at h
    · exact absurd h (by simp)
    · rename_i hm
      have h' : firstOccur rest w = none := by
        cases hfo : firstOccur rest w with
        | none => rfl
        | some k => rw [hfo] at h; simp at h
      cases i with
      | zero => simpa using hm
      | succ i' => simpa using ih h' i'

lemma firstOccur_some_spec (cs w : List Char) :
    ∀ i, firstOccur cs w = some i →
      matchesAt w (cs.drop i) = true ∧ ∀ j, j < i → matchesAt w (cs.drop j) = false := by
  induction cs with
  | nil =>
    intro i h
    rw [firstOccur] at h
    split at h
    · rename_i hm
      cases h
      exact ⟨by simpa using hm, fun j hj => absurd hj (Nat.not_lt_zero j)⟩
    · exact absurd h (by simp)
  | cons c rest ih =>
    intro i h
    rw [firstOccur] at h
    split at h
    · rename_i hm
      cases h
      exact ⟨by simpa using hm, fun j hj => absurd hj (Nat.not_lt_zero j)⟩
    · rename_i hm
      obtain ⟨k, hk, hik⟩ := Option.map_eq_some'.mp h
      subst hik
      obtain ⟨h1, h2⟩ := ih k hk
      refine ⟨by simpa using h1, ?_⟩
      intro j hj
      cases j with
      | zero => simpa using hm
      | succ j' => simpa using h2 j' (by omega)

lemma firstOccur_complete (cs w : List Char) (i : Nat)
    (h : matchesAt w (cs.drop i) = true) : ∃ j, firstOccur cs w = some j := by
  cases hf : firstOccur cs w with
  | some j => exact ⟨j, rfl⟩
  | none => rw [firstOccur_none_no_match cs w hf i] at h; exact absurd h (by simp)

/-- C9: every analyzed term is positioned at the first occurrence of its
word in the source text (`end = start + length > start`), and its frequency
is the exact-match count of the word in the word sequence, at least 1. -/
theorem C9_annotator_positions_and_frequency (content language domain : List Char) :
    ∀ t ∈ _analyze_terms content language domain,
      ∃ i : Nat,
        matchesAt t.text (content.drop i) = true
        ∧ (∀ j, j < i → matchesAt t.text (content.drop j) = false)
        ∧ t.start_position = (i : Int)
        ∧ t.end_position = (i : Int) + t.text.length
        ∧ t.start_position < t.end_position
        ∧ t.frequency = (pySplit content).count t.text
        ∧ 1 ≤ t.frequency := by
  intro t ht
  simp only [_analyze_terms, List.mem_map] at ht
  obtain ⟨w, hw, rfl⟩ := ht
  obtain ⟨hne, i0, hocc⟩ := pySplit_sound content w hw
  obtain ⟨j, hj⟩ := firstOccur_complete content w i0 hocc
  obtain ⟨hmatch, hmin⟩ := firstOccur_some_spec content w j hj
  have htext : (mkAnalyzedTerm content (pySplit content) language domain w).text = w := rfl
  have hstart : (mkAnalyzedTerm content (pySplit content) language domain w).start_position
      = (j : Int) := by
    simp [mkAnalyzedTerm, pyFind, hj]
  have hend : (mkAnalyzedTerm content (pySplit content) language domain w).end_position
      = (j : Int) + (w.length : Int) := by
    simp [mkAnalyzedTerm, pyFind, hj]
  have hfreq : (mkAnalyzedTerm content (pySplit content) language domain w).frequency
      = (pySplit content).count w := rfl
  have hlen : 0 < w.length := List.length_pos.mpr hne
  refine ⟨j, ?_, ?_, ?_, ?_, ?_, ?_, ?_⟩
  · rw [htext]; exact hmatch
  · rw [htext]; exact hmin
  · exact hstart
  · rw [htext, hend]
  · rw [hstart, hend]
    omega
  · rw [htext, hfreq]
  · rw [hfreq]
    exact List.count_pos_iff.mpr hw

/-- C9, witness at the two-character content `"ab"` and its single word. -/
theorem C9_annotator_positions_and_frequency_witness :
    ∃ i : Nat,
      matchesAt (mkAnalyzedTerm ['a', 'b'] (pySplit ['a', 'b']) [] [] ['a', 'b']).text
          (List.drop i ['a', 'b']) = true
      ∧ (∀ j, j < i →
          matchesAt (mkAnalyzedTerm ['a', 'b'] (pySplit ['a', 'b']) [] [] ['a', 'b']).text
            (List.drop j ['a', 'b']) = false)
      ∧ (mkAnalyzedTerm ['a', 'b'] (pySplit ['a', 'b']) [] [] ['a', 'b']).start_position = (i : Int)
      ∧ (mkAnalyzedTerm ['a', 'b'] (pySplit ['a', 'b']) [] [] ['a', 'b']).end_position
          = (i : Int) + (mkAnalyzedTerm ['a', 'b'] (pySplit ['a', 'b']) [] [] ['a', 'b']).text.length
      ∧ (mkAnalyzedTerm ['a', 'b'] (pySplit ['a', 'b']) [] [] ['a', 'b']).start_position
          < (mkAnalyzedTerm ['a', 'b'] (pySplit ['a', 'b']) [] [] ['a', 'b']).end_position
      ∧ (mkAnalyzedTerm ['a', 'b'] (pySplit ['a', 'b']) [] [] ['a', 'b']).frequency
          = (pySplit ['a', 'b']).count
              (mkAnalyzedTerm ['a', 'b'] (pySplit ['a', 'b']) [] [] ['a', 'b']).text
      ∧ 1 ≤ (mkAnalyzedTerm ['a', 'b'] (pySplit ['a', 'b']) [] [] ['a', 'b']).frequency :=
  C9_annotator_positions_and_frequency ['a', 'b'] [] []
    (mkAnalyzedTerm ['a', 'b'] (pySplit ['a', 'b']) [] [] ['a', 'b'])
    (by simp only [_analyze_terms, List.mem_map]
        exact ⟨['a', 'b'], by decide, rfl⟩)

/-- The `AnalysisResponse` record of `models.py`, with the fields the
orchestrator populates. -/
structure AnalysisResponse where
  terms : List AnalyzedTerm
  statistics : AnalysisStatistics
  status : AnalysisStatus
  request_id : List Char
  language : List Char
  domain : List Char
deriving DecidableEq, Repr

/-- One value of the `active_requests` registry of `AnalysisService`. -/
structure RegistryEntry where
  status : AnalysisStatus
  progress : Nat
  result : Option AnalysisResponse
  error : Option (List Char)
deriving DecidableEq, Repr

/-- The `active_requests` dict, as an association list keyed by
request id. -/
abbrev Registry := List (List Char × RegistryEntry)

/-- Python dict assignment `d[k] = e`: overwrite in place or append. -/
def registrySet : Registry → List Char → RegistryEntry → Registry
  | [], k, e => [(k, e)]
  | (k', e') :: rest, k, e =>
    if k' = k then (k, e) :: rest else (k', e') :: registrySet rest k e

/-- Python dict lookup `d.get(k)`. -/
def registryGet? : Registry → List Char → Option RegistryEntry
  | [], _ => none
  | (k', e') :: rest, k => if k' = k then some e' else registryGet? rest k

/-- Field assignment `d[k]["f"] = v` on an existing entry; a key that is
absent is left untouched. -/
def registryModify : Registry → List Char → (RegistryEntry → RegistryEntry) → Registry
  | [], _, _ => []
  | (k', e') :: rest, k, f =>
    if k' = k then (k, f e') :: rest else (k', e') :: registryModify rest k f

/-- `AnalysisService._update_progress` (services.py:280-283): set the
progress field when the request id is registered. -/
def _update_progress (reg : Registry) (request_id : List Char) (progress : Nat) : Registry :=
  registryModify reg request_id (fun en => { en with progress := progress })

/-- `AnalysisService.analyze_text` (services.py:78-139), parametrized by
the two steps of its `try` block that the source lets raise (`_analyze_terms`
and `_calculate_statistics`); a raised exception is an `Except.error`
carrying the message.  The function registers the request as processing,
runs the steps with progress updates, records completion with the response,
and on a step failure records `failed` plus the message and re-raises. -/
def analyze_text_with
    (annotate : List Char → List Char → List Char → Except (List Char) (List AnalyzedTerm))
    (aggregate : List AnalyzedTerm → ℚ → Except (List Char) AnalysisStatistics)
    (reg : Registry) (request_id content language domain : List Char) (elapsed : ℚ) :
    Registry × Except (List Char) AnalysisResponse :=
  let reg1 := registrySet reg request_id
    { status := .processing, progress := 0, result := none, error := none }
  let reg2 := _update_progress reg1 request_id 25
  match annotate content language domain with
  | .error e =>
    (registryModify reg2 request_id (fun en => { en with status := .failed, error := some e }),
      .error e)
  | .ok terms =>
    let reg3 := _update_progress reg2 request_id 75
    match aggregate terms elapsed with
    | .error e =>
      (registryModify reg3 request_id (fun en => { en with status := .failed, error := some e }),
        .error e)
    | .ok statistics =>
      let reg4 := _update_progress reg3 request_id 100
      let response : AnalysisResponse :=
        { terms := terms
          statistics := statistics
          status := .completed
          request_id := request_id
          language := language
          domain := domain }
      let reg5 := registryModify reg4 request_id
        (fun en => { en with status := .completed, result := some response })
      (reg5, .ok response)

/-- `analyze_text` with its two steps instantiated by the actual
(non-raising) helpers of the source. -/
def analyze_text (reg : Registry) (request_id content language domain : List Char)
    (elapsed : ℚ) : Registry × Except (List Char) AnalysisResponse :=
  analyze_text_with
    (fun c l d => .ok (_analyze_terms c l d))
    (fun ts e => .ok (_calculate_statistics ts e))
    reg request_id content language domain elapsed

/-- Result type of the status lookup: a registry entry, or the
`{"status": "not_found"}` sentinel dict. -/
inductive StatusLookup where
  | found : RegistryEntry → StatusLookup
  | not_found : StatusLookup
deriving DecidableEq, Repr

/-- `AnalysisService.get_analysis_status` (services.py:285-287):
`active_requests.get(request_id, {"status": "not_found"})`. -/
def get_analysis_status (reg : Registry) (request_id : List Char) : StatusLookup :=
  match registryGet? reg request_id with
  | some en => .found en
  | none => .not_found

lemma registryGet_set_self (reg : Registry) (k : List Char) (e : RegistryEntry) :
    registryGet? (registrySet reg k e) k = some e := by
  induction reg with
  | nil => simp [registrySet, registryGet?]
  | cons p rest ih =>
    obtain ⟨k', e'⟩ := p
    by_cases hk : k' = k
    · simp [registrySet, registryGet?, hk]
    · simp [registrySet, registryGet?, hk, ih]

lemma registryGet_modify_self (reg : Registry) (k : List Char)
    (f : RegistryEntry → RegistryEntry) :
    registryGet? (registryModify reg k f) k = (registryGet? reg k).map f := by
  induction reg with
  | nil => simp [registryModify, registryGet?]
  | cons p rest ih =>
    obtain ⟨k', e'⟩ := p
    by_cases hk : k' = k
    · simp [registryModify, registryGet?, hk]
    · simp [registryModify, registryGet?, hk, ih]

/-- C6: when the annotation step or the aggregation step raises, the run
leaves the request's registry entry with status `failed` and the error
message attached, and re-raises the same message to the caller. -/
theorem C6_failure_marks_registry_and_reraises
    (annotate : List Char → List Char → List Char → Except (List Char) (List AnalyzedTerm))
    (aggregate : List AnalyzedTerm → ℚ → Except (List Char) AnalysisStatistics)
    (reg : Registry) (request_id content language domain : List Char)
    (elapsed : ℚ) (msg : List Char)
    (h : annotate content language domain = .error msg
        ∨ ∃ ts, annotate content language domain = .ok ts ∧ aggregate ts elapsed = .error msg) :
    (∃ en, registryGet?
        (analyze_text_with annotate aggregate reg request_id content language domain elapsed).1
        request_id = some en
      ∧ en.status = .failed ∧ en.error = some msg)
    ∧ (analyze_text_with annotate aggregate reg request_id content language domain elapsed).2
        = .error msg := by
  rcases h with ha | ⟨ts, ha, hg⟩
  · simp only [analyze_text_with, ha, _update_progress]
    refine ⟨⟨{ status := .failed, progress := 25, result := none, error := some msg },
      ?_, rfl, rfl⟩, ?_⟩
    · rw [registryGet_modify_self, registryGet_modify_self, registryGet_set_self]
      rfl
    · trivial
  · simp only [analyze_text_with, ha, hg, _update_progress]
    refine ⟨⟨{ status := .failed, progress := 75, result := none, error := some msg },
      ?_, rfl, rfl⟩, ?_⟩
    · rw [registryGet_modify_self, registryGet_modify_self, registryGet_modify_self,
        registryGet_set_self]
      rfl
    · trivial

/-- C6, witness: a run whose annotation step raises `"x"`. -/
theorem C6_failure_marks_registry_and_reraises_witness :
    (∃ en, registryGet?
        (analyze_text_with (fun _ _ _ => Except.error ['x'])
          (fun ts e => Except.ok (_calculate_statistics ts e))
          [] ['r'] [] [] [] 0).1
        ['r'] = some en
      ∧ en.status = .failed ∧ en.error = some ['x'])
    ∧ (analyze_text_with (fun _ _ _ => Except.error ['x'])
        (fun ts e => Except.ok (_calculate_statistics ts e))
        [] ['r'] [] [] [] 0).2 = .error ['x'] :=
  C6_failure_marks_registry_and_reraises
    (fun _ _ _ => Except.error ['x'])
    (fun ts e => Except.ok (_calculate_statistics ts e))
    [] ['r'] [] [] [] 0 ['x'] (Or.inl rfl)

/-- C7: the status lookup is total: it answers `found` with the registered
entry exactly when the id is in the registry, and the `not_found` sentinel
exactly when it is not; it takes the registry as a plain value and returns
only a lookup result, so the registry is unchanged. -/
theorem C7_status_lookup_total (reg : Registry) (request_id : List Char) :
    (∃ en, registryGet? reg request_id = some en
        ∧ get_analysis_status reg request_id = .found en)
    ∨ (registryGet? reg request_id = none
        ∧ get_analysis_status reg request_id = .not_found) := by
  cases h : registryGet? reg request_id with
  | some en => exact Or.inl ⟨en, rfl, by simp [get_analysis_status, h]⟩
  | none => exact Or.inr ⟨rfl, by simp [get_analysis_status, h]⟩

lemma classify_ne_grammar (term language domain : List Char) :
    _classify_term term language domain ≠ .grammar := by
  unfold _classify_term
  split_ifs <;> simp

/-- C10: the classifier never emits `grammar`; hence a successful
`analyze_text` run returns a response with no grammar-classified term and
`grammar_errors = 0` in its statistics. -/
theorem C10_no_grammar_in_successful_run :
    (∀ term language domain : List Char, _classify_term term language domain ≠ .grammar)
    ∧ (∀ (reg : Registry) (request_id content language domain : List Char) (elapsed : ℚ)
        (reg' : Registry) (resp : AnalysisResponse),
        analyze_text reg request_id content language domain elapsed = (reg', .ok resp) →
        (∀ t ∈ resp.terms, t.classification ≠ .grammar)
        ∧ resp.statistics.grammar_errors = 0) := by
  constructor
  · exact classify_ne_grammar
  · intro reg request_id content language domain elapsed reg' resp h
    simp only [analyze_text, analyze_text_with, Prod.mk.injEq, Except.ok.injEq] at h
    obtain ⟨-, hresp⟩ := h
    subst hresp
    constructor
    · intro t ht
      simp only [_analyze_terms, List.mem_map] at ht
      obtain ⟨w, -, rfl⟩ := ht
      exact classify_ne_grammar w language domain
    · show countClass (_analyze_terms content language domain) .grammar = 0
      simp only [countClass, List.countP_eq_zero]
      intro t ht
      simp only [_analyze_terms, List.mem_map] at ht
      obtain ⟨w, -, rfl⟩ := ht
      simp [mkAnalyzedTerm, classify_ne_grammar w language domain]

/-- C10, witness: the concrete empty-content run. -/
theorem C10_no_grammar_in_successful_run_witness :
    (∀ t ∈ (AnalysisResponse.mk [] (_calculate_statistics [] 0) .completed ['r'] [] []).terms,
        t.classification ≠ TermClassification.grammar)
    ∧ (AnalysisResponse.mk [] (_calculate_statistics [] 0) .completed ['r'] [] []).statistics.grammar_errors = 0 :=
  C10_no_grammar_in_successful_run.2 [] ['r'] [] [] [] 0
    [(['r'], { status := .completed, progress := 100,
               result := some (AnalysisResponse.mk [] (_calculate_statistics [] 0) .completed ['r'] [] []),
               error := none })]
    (AnalysisResponse.mk [] (_calculate_statistics [] 0) .completed ['r'] [] [])
    rfl
